import Mathlib

/-!
Shallow embedding of the pacific-notions-downloader-go repository
(`src/main.go`, the current version; older revisions are
`src/unnamed/part_000` and `part_001`).

The program computes the Sundays of a target month, guesses an archive URL
for each by probing a small descending range of numeric suffixes, filters
out URLs whose basename already exists in the output directory, and
downloads the rest.  Network and filesystem effects are abstracted: a
responder `resp : String → Bool` says which candidate URLs answer an HTTP
HEAD with status 200 and no error, and a directory is the list of
filenames it contains.
-/

namespace PacificNotions

/-! ## URL construction and probing (`makeURLForDate`,
`tryFindURLForDateMysteriosNumber`, src/main.go lines 154-172) -/

/-- Go `fmt.Sprintf` verb `%02d` applied to an `int`: the decimal digits of
the absolute value, zero-padded on the left so that sign plus digits reach
width 2, with a leading `-` for negatives. -/
def sprintf02d (n : Int) : String :=
  let digits := toString n.natAbs
  let signLen : Nat := if n < 0 then 1 else 0
  let pad := String.mk (List.replicate (2 - (signLen + digits.length)) '0')
  (if n < 0 then "-" else "") ++ pad ++ digits

/-- Function `makeURLForDate` (src/main.go line 154): interpolates the date string and
the `%02d`-formatted mysterious number into the fixed URL template
`https://kexp-archive.streamguys1.com/content/kexp/%s0550%02d-33-1962-pacific-notions.mp3`. -/
def makeURLForDate (date : String) (mysteriousNumber : Int) : String :=
  "https://kexp-archive.streamguys1.com/content/kexp/" ++ date ++ "0550"
    ++ sprintf02d mysteriousNumber ++ "-33-1962-pacific-notions.mp3"

/-- Function `tryFindURLForDateMysteriosNumber` (src/main.go lines 158-172).  The
network is abstracted by `resp`: `resp url = true` iff `http.Head url`
returns no error and status code 200.  Returns `""` once the suffix is
negative; otherwise returns the candidate URL if the probe succeeds, and
recurses with suffix decremented by one if it does not. -/
def tryFindURLForDateMysteriosNumber (resp : String → Bool) (date : String)
    (mysteriousNumber : Int) : String :=
  if mysteriousNumber < 0 then ""
  else
    let urlCandidate := makeURLForDate date mysteriousNumber
    if resp urlCandidate then urlCandidate
    else tryFindURLForDateMysteriosNumber resp date (mysteriousNumber - 1)
termination_by (mysteriousNumber + 1).toNat
decreasing_by omega

/-- Number of HTTP HEAD probes issued by `tryFindURLForDateMysteriosNumber`:
the same recursion, counting one probe per call that reaches `http.Head`. -/
def tryFindProbeCount (resp : String → Bool) (date : String)
    (mysteriousNumber : Int) : Nat :=
  if mysteriousNumber < 0 then 0
  else
    if resp (makeURLForDate date mysteriousNumber) then 1
    else 1 + tryFindProbeCount resp date (mysteriousNumber - 1)
termination_by (mysteriousNumber + 1).toNat
decreasing_by omega

/-! ## Calendar model (Go `time` package, proleptic Gregorian, UTC) -/

/-- Go `isLeap` (`time` package): a year is leap iff divisible by 4 and not
by 100, or divisible by 400. -/
def isLeap (y : Int) : Bool :=
  (y % 4 == 0 && y % 100 != 0) || y % 400 == 0

/-- Days in a month of a given year (Go `time.daysIn`). -/
def daysInMonth (m y : Int) : Int :=
  if m = 2 then (if isLeap y then 29 else 28)
  else if m = 1 ∨ m = 3 ∨ m = 5 ∨ m = 7 ∨ m = 8 ∨ m = 10 ∨ m = 12 then 31
  else 30

/-- Cumulative days before month `m` in a non-leap year (Go `time.daysBefore`
table); meaningful for `1 ≤ m ≤ 13`. -/
def daysBefore (m : Int) : Int :=
  if m ≤ 1 then 0
  else if m = 2 then 31
  else if m = 3 then 59
  else if m = 4 then 90
  else if m = 5 then 120
  else if m = 6 then 151
  else if m = 7 then 181
  else if m = 8 then 212
  else if m = 9 then 243
  else if m = 10 then 273
  else if m = 11 then 304
  else if m = 12 then 334
  else 365

/-- Days from January 1 of year 1 (Go's absolute day 0) to January 1 of year
`y`, proleptic Gregorian, using floor division for years before 1. -/
def daysBeforeYear (y : Int) : Int :=
  365 * (y - 1) + (y - 1).fdiv 4 - (y - 1).fdiv 100 + (y - 1).fdiv 400

/-- Absolute day number of the calendar date `y-m-d` (days since January 1 of
year 1, which is day 0); valid for `1 ≤ m ≤ 13` with `m = 13` meaning
January of the next year shifted by a full year. -/
def dateAbs (y m d : Int) : Int :=
  daysBeforeYear y + daysBefore m
    + (if isLeap y ∧ 3 ≤ m then 1 else 0) + (d - 1)

/-- Go `time.Weekday` of an absolute day number: January 1 of year 1 was a
Monday, and Go numbers Sunday as 0, so the weekday is `(t + 1) mod 7`. -/
def weekdayAbs (t : Int) : Int := (t + 1) % 7

/-- A Go `time.Time` holding a calendar date at midnight UTC, kept in
normalized form (month 1-12, day within the month). Two such values compare
equal with Go `==` iff the fields are equal. -/
structure GoDate where
  year : Int
  month : Int
  day : Int
deriving DecidableEq, Repr

/-- Absolute day number of a `GoDate`. -/
def GoDate.abs (t : GoDate) : Int := dateAbs t.year t.month t.day

/-- Go `Weekday()` of a `GoDate` (Sunday is 0). -/
def GoDate.weekday (t : GoDate) : Int := weekdayAbs t.abs

/-- Successor day, `t.AddDate(0, 0, 1)`, on a normalized in-month date: Go renormalizes
`Date(y, m, d+1)`, rolling into the next month or year when the day
overflows. -/
def addOneDay (t : GoDate) : GoDate :=
  if t.day < daysInMonth t.month t.year then ⟨t.year, t.month, t.day + 1⟩
  else if t.month < 12 then ⟨t.year, t.month + 1, 1⟩
  else ⟨t.year + 1, 1, 1⟩

/-- Last day of the month, `day.AddDate(0, 1, -1)` applied to the first
(src/main.go line 113): Go normalizes `Date(y, m+1, 0)`, the last day of
month `m`. -/
def lastDayOfMonth (m y : Int) : GoDate := ⟨y, m, daysInMonth m y⟩

/-- The loop body of `findSundays` (src/main.go lines 115-123): append `day`
when its weekday is Sunday, stop when `day == lastDay`, else advance one
day.  `fuel` bounds the iteration count; the callers pass more fuel than
the at most 31 iterations the loop performs. -/
def findSundaysAux (lastDay : GoDate) : Nat → GoDate → List GoDate
  | 0, _ => []
  | fuel + 1, day =>
    (if day.weekday = 0 then [day] else [])
      ++ (if day = lastDay then [] else findSundaysAux lastDay fuel (addOneDay day))

/-- Function `findSundays` (src/main.go lines 111-125): all Sundays from the first to
the last day of the month, collected in loop order. -/
def findSundays (m y : Int) : List GoDate :=
  findSundaysAux (lastDayOfMonth m y) 366 ⟨y, m, 1⟩

/-- Function `filterSundaysUntilToday` (src/main.go lines 127-138): keep the Sundays
whose day-of-month is at most today's day-of-month. -/
def filterSundaysUntilToday (today : Int) (sundays : List GoDate) : List GoDate :=
  sundays.filter (fun sunday => sunday.day ≤ today)

/-! ## Month/year offset (`adjustForPast`, src/main.go lines 88-109) -/

/-- The `monthsDelta` computed by `adjustForPast` from the flags: 1 when
`-previous-month` is set, else the `-p` count (`math.Abs` on the
non-negative `uint` is the identity for all values the flag can
represent exactly). -/
def monthsDelta (usePreviousMonth : Bool) (previousMonths : Nat) : Int :=
  if usePreviousMonth then 1
  else if previousMonths ≠ 0 then (previousMonths : Int) else 0

/-- Function `adjustForPast` (src/main.go lines 88-109), with the global flags
`-previous-month` and `-p` passed explicitly: returns the input unchanged
when no offset is requested, otherwise subtracts `monthsDelta` from the
month and, when the result is ≤ 0, sets the month to 12 and decrements the
year by one. -/
def adjustForPast (usePreviousMonth : Bool) (previousMonths : Nat)
    (curMonth curYear : Int) : Int × Int :=
  if ¬usePreviousMonth ∧ previousMonths = 0 then (curMonth, curYear)
  else
    let m := curMonth - monthsDelta usePreviousMonth previousMonths
    if m ≤ 0 then (12, curYear - 1) else (m, curYear)

/-- The candidate-date computation of `main` (src/main.go lines 34-37):
enumerate the Sundays of the (already adjusted) target month, and trim to
today's day-of-month only when no past offset was requested. -/
def candidateDates (usePreviousMonth : Bool) (previousMonths : Nat)
    (today m y : Int) : List GoDate :=
  let sundays := findSundays m y
  if ¬usePreviousMonth ∧ previousMonths = 0 then filterSundaysUntilToday today sundays
  else sundays

/-! ## Local inventory and downloads (src/main.go lines 174-216).  The
output directory is modelled as the list of filenames it contains; a file
exists at `path.Join(dir, name)` iff `name` is in that list. -/

/-- Go `path.Base`: `"."` for the empty string; otherwise strip trailing
slashes, take everything after the last remaining `/`, and return `"/"`
when only slashes were present. -/
def pathBase (s : String) : String :=
  if s = "" then "."
  else
    let trimmed := (s.toList.reverse.dropWhile (fun c => c = '/')).reverse
    let base := (trimmed.reverse.takeWhile (fun c => c ≠ '/')).reverse
    if base = [] then "/" else String.mk base

/-- The `os.Stat` existence check on `path.Join(outputDir, name)`, with the
directory modelled as its list of filenames. -/
def fileExists (files : List String) (name : String) : Bool :=
  files.contains name

/-- Function `isDownloadMissing` (src/main.go lines 212-216): true iff no file named
`path.Base(link)` exists in the output directory. -/
def isDownloadMissing (files : List String) (link : String) : Bool :=
  !fileExists files (pathBase link)

/-- Function `filterMissingDownloads` (src/main.go lines 199-210): keep, in order,
the URLs whose basename does not exist in the output directory. -/
def filterMissingDownloads (files : List String) : List String → List String
  | [] => []
  | url :: urls =>
    if !fileExists files (pathBase url) then
      url :: filterMissingDownloads files urls
    else filterMissingDownloads files urls

/-- Effect of a successful `downloadFile url outputDir` (src/main.go lines
174-197) on the directory state: `os.Create(path.Join(outputDir,
path.Base(url)))` followed by a full write leaves a file named
`path.Base(url)` in the directory. -/
def downloadFileFS (files : List String) (url : String) : List String :=
  files ++ [pathBase url]

/-- The probe phase of `main` (src/main.go lines 43-60, equivalently
src/unnamed/part_000 lines 46-51): for each formatted Sunday, the URL
discovered with starting suffix 12, kept when non-empty. -/
def discoverLinks (resp : String → Bool) (dates : List String) : List String :=
  dates.filterMap (fun d =>
    let link := tryFindURLForDateMysteriosNumber resp d 12
    if link ≠ "" then some link else none)

/-- One pipeline run over the directory state: discover URLs, filter the
missing ones, download each (successfully) into the directory.  Returns the
list downloaded and the resulting directory contents. -/
def runPipelineFS (resp : String → Bool) (dates : List String)
    (files : List String) : List String × List String :=
  let links := discoverLinks resp dates
  let missing := filterMissingDownloads files links
  (missing, missing.foldl downloadFileFS files)

/-! ## The fan-in of `main` (src/main.go lines 41-67).  `main` spawns one
goroutine per Sunday; a goroutine whose link is non-empty and missing sends
it on the unbuffered channel `validURLs` and only then runs its deferred
`wg.Done()`; `main` calls `wg.Wait()`, then `close(validURLs)`, and only
after that receives.  A completed execution is recorded by the instants of
its events, constrained exactly as Go's channel and WaitGroup semantics
order them. -/

/-- A completed execution of `main`'s probe fan-in in which `n` goroutines
had a missing link to send, indexed `0, ..., n-1`. -/
structure FanInExecution (n : Nat) where
  /-- Instant at which goroutine `i`'s send on `validURLs` completes. -/
  sendTime : Fin n → Nat
  /-- Instant at which goroutine `i`'s deferred `wg.Done()` runs. -/
  doneTime : Fin n → Nat
  /-- Instant at which `wg.Wait()` returns in `main`. -/
  waitTime : Nat
  /-- Instant at which `main` receives goroutine `i`'s value from the
  channel (in the `for link := range validURLs` loop). -/
  recvTime : Fin n → Nat
  /-- The deferred `wg.Done()` runs only after the goroutine body, hence
  after its send completes. -/
  send_before_done : ∀ i, sendTime i < doneTime i
  /-- Call `wg.Wait()` returns only after every goroutine's `wg.Done()`. -/
  done_before_wait : ∀ i, doneTime i ≤ waitTime
  /-- Goroutine `main` receives from `validURLs` only after `wg.Wait()` returned. -/
  wait_before_recv : ∀ i, waitTime < recvTime i
  /-- Channel `validURLs` is unbuffered (`make(chan string)`): a send completes
  exactly at the instant a receiver takes the value. -/
  rendezvous : ∀ i, sendTime i = recvTime i

/-! ## Helper lemmas -/

/-- Membership in `filterMissingDownloads`: a URL is kept iff it occurs in
the input and its basename is not among the directory's files. -/
theorem mem_filterMissingDownloads (files : List String) (urls : List String)
    (url : String) :
    url ∈ filterMissingDownloads files urls ↔
      url ∈ urls ∧ pathBase url ∉ files := by
  induction urls with
  | nil => simp [filterMissingDownloads]
  | cons u us ih =>
    by_cases h : fileExists files (pathBase u) = true
    · simp only [filterMissingDownloads, h, Bool.not_true, Bool.false_eq_true,
        if_false, ih, List.mem_cons]
      constructor
      · rintro ⟨hu, hb⟩; exact ⟨Or.inr hu, hb⟩
      · rintro ⟨hu | hu, hb⟩
        · subst hu
          exact absurd ((List.elem_iff).1 h) hb
        · exact ⟨hu, hb⟩
    · have h2 : (!fileExists files (pathBase u)) = true := by
        simp [Bool.not_eq_true] at h ⊢; exact h
      simp only [filterMissingDownloads, h2, if_true, List.mem_cons, ih]
      have hb : pathBase u ∉ files := by
        intro hmem
        exact h ((List.elem_iff).2 hmem)
      constructor
      · rintro (rfl | ⟨hu, hnb⟩)
        · exact ⟨Or.inl rfl, hb⟩
        · exact ⟨Or.inr hu, hnb⟩
      · rintro ⟨hu | hu, hnb⟩
        · exact Or.inl hu
        · exact Or.inr ⟨hu, hnb⟩

/-! ## Claim theorems -/

/-- C7: for every input month in 1-12, every year, and every combination of
the previous-month flag and a non-negative months-back offset, the month
returned by `adjustForPast` is in 1-12, and whenever the subtraction
underflows (result ≤ 0) the month is set to December and the year is
decremented by exactly one. -/
theorem adjustForPast_month_normalized (up : Bool) (p : Nat) (m y : Int)
    (h1 : 1 ≤ m) (h2 : m ≤ 12) :
    1 ≤ (adjustForPast up p m y).1 ∧ (adjustForPast up p m y).1 ≤ 12 ∧
      (¬(¬up = true ∧ p = 0) → m - monthsDelta up p ≤ 0 →
        (adjustForPast up p m y).1 = 12 ∧
          (adjustForPast up p m y).2 = y - 1) := by
  unfold adjustForPast monthsDelta
  rcases up with _ | _ <;> by_cases hp : p = 0 <;>
    simp only [hp, Bool.not_true, Bool.not_false, Bool.true_eq_false,
      Bool.false_eq_true, ne_eq, not_true_eq_false, not_false_eq_true,
      true_and, false_and, and_true, and_false, if_true, if_false,
      ite_true, ite_false, not_not] <;>
    (try split_ifs) <;>
    simp_all <;> (try omega)

/-- Witness for C7 at the concrete input `-p 14` in February 2024. -/
theorem adjustForPast_month_normalized_witness :
    (1 : Int) ≤ 2 ∧ (2 : Int) ≤ 12 ∧
      (1 ≤ (adjustForPast false 14 2 2024).1 ∧
        (adjustForPast false 14 2 2024).1 ≤ 12 ∧
        (¬(¬false = true ∧ (14 : Nat) = 0) →
          (2 : Int) - monthsDelta false 14 ≤ 0 →
          (adjustForPast false 14 2 2024).1 = 12 ∧
            (adjustForPast false 14 2 2024).2 = 2024 - 1)) :=
  ⟨by norm_num, by norm_num,
    adjustForPast_month_normalized false 14 2 2024 (by norm_num) (by norm_num)⟩

/-- C2 counterexample: requesting 14 months back in February 2024 does not
yield December 2022 as direct month arithmetic would; the code yields
December 2023, decrementing the year only once. -/
theorem adjustForPast_feb14_not_two_years :
    adjustForPast false 14 2 2024 = (12, 2023) ∧
      adjustForPast false 14 2 2024 ≠ (12, 2022) := by
  constructor
  · rfl
  · intro h
    have : (2023 : Int) = 2022 := congrArg Prod.snd h
    omega

/-- C2 amended: requesting 1 month back in January of year `y` (via either
flag) yields December of year `y - 1`; requesting `N` months back where
`N ≥ m` yields December with the year decremented by exactly one,
regardless of how many whole years the offset spans (so `N = 14` in
February of year `y` yields December of `y - 1`, not `y - 2`). -/
theorem adjustForPast_underflow_one_year (m y : Int) (N : Nat)
    (h1 : 1 ≤ m) (h2 : m ≤ 12) (hN : m ≤ (N : Int)) :
    adjustForPast true 0 1 y = (12, y - 1) ∧
      adjustForPast false 1 1 y = (12, y - 1) ∧
      adjustForPast false N m y = (12, y - 1) := by
  refine ⟨rfl, rfl, ?_⟩
  have hN0 : N ≠ 0 := by
    intro h0; rw [h0] at hN; simp at hN; omega
  unfold adjustForPast monthsDelta
  simp only [Bool.false_eq_true, false_and, not_false_eq_true, hN0, ne_eq,
    if_false, ite_false, if_true, ite_true, not_true_eq_false,
    if_neg, reduceIte]
  have : m - (N : Int) ≤ 0 := by omega
  simp [this]

/-- Witness for C2 amended at February 2024 with `N = 14`. -/
theorem adjustForPast_underflow_one_year_witness :
    (1 : Int) ≤ 2 ∧ (2 : Int) ≤ 12 ∧ (2 : Int) ≤ (14 : Nat) ∧
      (adjustForPast true 0 1 2024 = (12, 2024 - 1) ∧
        adjustForPast false 1 1 2024 = (12, 2024 - 1) ∧
        adjustForPast false 14 2 2024 = (12, 2024 - 1)) :=
  ⟨by norm_num, by norm_num, by norm_num,
    adjustForPast_underflow_one_year 2 2024 14 (by norm_num) (by norm_num)
      (by norm_num)⟩

/-- C8: `makeURLForDate` is a pure function of the pair (date string,
suffix) — equal inputs give equal URLs — and for every suffix from 0
through 9 the URL is exactly the fixed template: host, `/content/kexp/`,
the date string, the fixed segment `0550`, the suffix as two digits with a
leading zero, and the fixed trailing identifier ending in `.mp3`. -/
theorem makeURLForDate_template (d : String) (n : Int)
    (h0 : 0 ≤ n) (h9 : n ≤ 9) :
    makeURLForDate d n =
      "https://kexp-archive.streamguys1.com/content/kexp/" ++ d ++ "0550"
        ++ ("0" ++ toString n) ++ "-33-1962-pacific-notions.mp3" ∧
      ∀ (d2 : String) (n2 : Int), d2 = d → n2 = n →
        makeURLForDate d2 n2 = makeURLForDate d n := by
  constructor
  · have hs : sprintf02d n = "0" ++ toString n := by
      interval_cases n <;> rfl
    rw [makeURLForDate, hs]
  · intro d2 n2 hd hn
    rw [hd, hn]

/-- Witness for C8 at date `"20240303"` and suffix 7. -/
theorem makeURLForDate_template_witness :
    (0 : Int) ≤ 7 ∧ (7 : Int) ≤ 9 ∧
      (makeURLForDate "20240303" 7 =
        "https://kexp-archive.streamguys1.com/content/kexp/" ++ "20240303"
          ++ "0550" ++ ("0" ++ toString (7 : Int))
          ++ "-33-1962-pacific-notions.mp3" ∧
        ∀ (d2 : String) (n2 : Int), d2 = "20240303" → n2 = 7 →
          makeURLForDate d2 n2 = makeURLForDate "20240303" 7) :=
  ⟨by norm_num, by norm_num,
    makeURLForDate_template "20240303" 7 (by norm_num) (by norm_num)⟩

/-- C4: for every directory state (the list of filenames present) and every
list of URLs, `filterMissingDownloads` returns exactly those URLs whose
basename (final path segment) does not name an existing file — it equals
the filter of the input by `isDownloadMissing`, a URL is a member iff it
occurs in the input with its basename absent, and `isDownloadMissing`
returns true iff no file named `path.Base(link)` exists. -/
theorem filterMissingDownloads_spec (files urls : List String) (url : String) :
    filterMissingDownloads files urls =
      urls.filter (fun u => isDownloadMissing files u) ∧
      (url ∈ filterMissingDownloads files urls ↔
        url ∈ urls ∧ pathBase url ∉ files) ∧
      (isDownloadMissing files url = true ↔ pathBase url ∉ files) := by
  refine ⟨?_, mem_filterMissingDownloads files urls url, ?_⟩
  · induction urls with
    | nil => rfl
    | cons u us ih =>
      simp only [filterMissingDownloads, isDownloadMissing, List.filter_cons]
      rcases h : !fileExists files (pathBase u) with _ | _
      · simp only [h, Bool.false_eq_true, if_false, ih, isDownloadMissing]
      · simp only [h, if_true, ih, isDownloadMissing]
  · simp [isDownloadMissing, fileExists]

/-- C3: the non-empty branch of `main` (src/main.go) can never run.  When
at least one goroutine has a missing URL to send, no completed execution of
the probe fan-in exists: the send on the unbuffered `validURLs` channel can
only rendezvous with a receive that happens after `wg.Wait()`, but
`wg.Wait()` returns only after the sender's deferred `wg.Done()`, which
runs only after the send — so the program deadlocks before printing any
"Downloading" line, contradicting the claimed one-line-per-URL behavior
(which the sequential filter of the older revisions part_000/part_001 does
satisfy). -/
theorem fanIn_deadlock (n : Nat) (h : 0 < n) : IsEmpty (FanInExecution n) := by
  constructor
  intro e
  have i : Fin n := ⟨0, h⟩
  have h1 := e.send_before_done i
  have h2 := e.done_before_wait i
  have h3 := e.wait_before_recv i
  have h4 := e.rendezvous i
  omega

/-- Witness for C3 with a single missing URL. -/
theorem fanIn_deadlock_witness : 0 < 1 ∧ IsEmpty (FanInExecution 1) :=
  ⟨by norm_num, fanIn_deadlock 1 (by norm_num)⟩

/-- Bound on the probe count: at most `(n+1).toNat` HEAD requests are made
when starting from suffix `n`. -/
theorem tryFindProbeCount_le (resp : String → Bool) (d : String) :
    ∀ (fuel : Nat) (n : Int), (n + 1).toNat ≤ fuel →
      tryFindProbeCount resp d n ≤ (n + 1).toNat := by
  intro fuel
  induction fuel with
  | zero =>
    intro n hn
    have hneg : n < 0 := by omega
    rw [tryFindProbeCount, if_pos hneg]
    exact Nat.zero_le _
  | succ f ih =>
    intro n hn
    by_cases hneg : n < 0
    · rw [tryFindProbeCount, if_pos hneg]
      exact Nat.zero_le _
    · rw [tryFindProbeCount, if_neg hneg]
      rcases hr : resp (makeURLForDate d n) with _ | _
      · simp only [Bool.false_eq_true, if_false]
        have hrec : tryFindProbeCount resp d (n - 1) ≤ (n - 1 + 1).toNat :=
          ih (n - 1) (by omega)
        omega
      · simp only [if_true]
        omega

/-- C10: `tryFindURLForDateMysteriosNumber` terminates on every date string
and every integer starting suffix (it is a total function of a recursion
that decreases the suffix by one per call), it returns the empty string
immediately — with zero probes — once the suffix is negative, and it issues
at most `max (n + 1) 0` HEAD probes for starting suffix `n`. -/
theorem tryFind_terminates (resp : String → Bool) (d : String) (n : Int) :
    tryFindProbeCount resp d n ≤ (n + 1).toNat ∧
      (n < 0 → tryFindURLForDateMysteriosNumber resp d n = "" ∧
        tryFindProbeCount resp d n = 0) := by
  refine ⟨tryFindProbeCount_le resp d (n + 1).toNat n le_rfl, ?_⟩
  intro hneg
  constructor
  · rw [tryFindURLForDateMysteriosNumber, if_pos hneg]
  · rw [tryFindProbeCount, if_pos hneg]

/-- Witness for C10: the implication hypothesis discharged at suffix `-3`,
where the prober answers immediately with no probes. -/
theorem tryFind_terminates_witness :
    tryFindProbeCount (fun _ => false) "20240303" (-3) ≤ ((-3 : Int) + 1).toNat ∧
      (tryFindURLForDateMysteriosNumber (fun _ => false) "20240303" (-3) = "" ∧
        tryFindProbeCount (fun _ => false) "20240303" (-3) = 0) :=
  ⟨(tryFind_terminates (fun _ => false) "20240303" (-3)).1,
    (tryFind_terminates (fun _ => false) "20240303" (-3)).2 (by norm_num)⟩

/-- Unfolding equation for `tryFindURLForDateMysteriosNumber`. -/
theorem tryFind_eq (resp : String → Bool) (d : String) (n : Int) :
    tryFindURLForDateMysteriosNumber resp d n =
      if n < 0 then ""
      else if resp (makeURLForDate d n) then makeURLForDate d n
      else tryFindURLForDateMysteriosNumber resp d (n - 1) := by
  rw [tryFindURLForDateMysteriosNumber]

/-- C1: for every date string, every starting suffix `n ≥ 0` and every
responder, the prober searches suffixes downward from `n`: either no suffix
in `[0, n]` is reported found and the result is the empty string (no URL,
not an error), or the result is `makeURLForDate d k` for the largest found
suffix `k` in `[0, n]` — every suffix above `k` up to `n`, probed first,
was reported not found. -/
theorem tryFind_descending_search (resp : String → Bool) (d : String)
    (n : Int) (hn : 0 ≤ n) :
    ((∀ k : Int, 0 ≤ k → k ≤ n → resp (makeURLForDate d k) = false) ∧
      tryFindURLForDateMysteriosNumber resp d n = "") ∨
    (∃ k : Int, 0 ≤ k ∧ k ≤ n ∧ resp (makeURLForDate d k) = true ∧
      (∀ j : Int, k < j → j ≤ n → resp (makeURLForDate d j) = false) ∧
      tryFindURLForDateMysteriosNumber resp d n = makeURLForDate d k) := by
  obtain ⟨m, rfl⟩ : ∃ m : Nat, n = (m : Int) := ⟨n.toNat, by omega⟩
  clear hn
  induction m with
  | zero =>
    rw [Nat.cast_zero, tryFind_eq, if_neg (by omega)]
    rcases hr : resp (makeURLForDate d 0) with _ | _
    · left
      refine ⟨?_, ?_⟩
      · intro k hk0 hk1
        have hk : k = 0 := le_antisymm hk1 hk0
        rw [hk]; exact hr
      · rw [if_neg (by simp), tryFind_eq, if_pos (by omega)]
    · right
      refine ⟨0, le_refl 0, le_refl 0, hr, ?_, ?_⟩
      · intro j hj1 hj2; omega
      · rw [if_pos rfl]
  | succ k ih =>
    push_cast
    rw [tryFind_eq, if_neg (by omega)]
    rcases hr : resp (makeURLForDate d ((k : Int) + 1)) with _ | _
    · rw [if_neg (by simp)]
      have hstep : (k : Int) + 1 - 1 = (k : Int) := by ring
      rw [hstep]
      rcases ih with ⟨hall, hres⟩ | ⟨k0, hk0, hkn, hfound, hmax, hres⟩
      · left
        refine ⟨?_, hres⟩
        intro k2 hk20 hk21
        rcases lt_or_ge (k : Int) k2 with hlt | hle
        · have hk2 : k2 = (k : Int) + 1 := by omega
          rw [hk2]; exact hr
        · exact hall k2 hk20 hle
      · right
        refine ⟨k0, hk0, by omega, hfound, ?_, hres⟩
        intro j hj1 hj2
        rcases lt_or_ge (k : Int) j with hlt | hle
        · have hj : j = (k : Int) + 1 := by omega
          rw [hj]; exact hr
        · exact hmax j hj1 hle
    · right
      refine ⟨(k : Int) + 1, by omega, le_refl _, hr, ?_, ?_⟩
      · intro j hj1 hj2; omega
      · rw [if_pos rfl]

/-- Witness for C1: the spec's own scenario — a responder that reports
found only for suffix 7 in the range 0-12 makes the prober return exactly
the URL for suffix 7. -/
theorem tryFind_descending_search_witness :
    ((∀ k : Int, 0 ≤ k → k ≤ 12 →
        (fun s => s == makeURLForDate "20240303" 7) (makeURLForDate "20240303" k) = false) ∧
      tryFindURLForDateMysteriosNumber
        (fun s => s == makeURLForDate "20240303" 7) "20240303" 12 = "") ∨
    (∃ k : Int, 0 ≤ k ∧ k ≤ 12 ∧
      (fun s => s == makeURLForDate "20240303" 7) (makeURLForDate "20240303" k) = true ∧
      (∀ j : Int, k < j → j ≤ 12 →
        (fun s => s == makeURLForDate "20240303" 7) (makeURLForDate "20240303" j) = false) ∧
      tryFindURLForDateMysteriosNumber
        (fun s => s == makeURLForDate "20240303" 7) "20240303" 12 =
          makeURLForDate "20240303" k) :=
  tryFind_descending_search (fun s => s == makeURLForDate "20240303" 7)
    "20240303" 12 (by norm_num)

/-- Downloading a batch of URLs adds exactly their basenames to the
directory contents. -/
theorem foldl_downloadFileFS (urls : List String) :
    ∀ files : List String,
      urls.foldl downloadFileFS files = files ++ urls.map pathBase := by
  induction urls with
  | nil => intro files; simp
  | cons u us ih =>
    intro files
    simp only [List.foldl_cons, List.map_cons, ih, downloadFileFS,
      List.append_assoc, List.cons_append, List.nil_append]

/-- C9: running the pipeline twice with the same responder and no external
change to the directory downloads nothing the second time — every URL
downloaded in the first run has its basename present afterwards, and the
second run's missing-filter over the same discovered links is empty. -/
theorem pipeline_idempotent (resp : String → Bool) (dates files : List String) :
    (∀ u ∈ (runPipelineFS resp dates files).1,
      fileExists (runPipelineFS resp dates files).2 (pathBase u) = true) ∧
    (runPipelineFS resp dates (runPipelineFS resp dates files).2).1 = [] := by
  have h1 : (runPipelineFS resp dates files).1 =
      filterMissingDownloads files (discoverLinks resp dates) := rfl
  have h2 : (runPipelineFS resp dates files).2 =
      files ++ (filterMissingDownloads files (discoverLinks resp dates)).map pathBase := by
    show (filterMissingDownloads files (discoverLinks resp dates)).foldl
        downloadFileFS files = _
    exact foldl_downloadFileFS _ files
  constructor
  · intro u hu
    rw [h1] at hu
    rw [h2, fileExists, List.contains_eq_any_beq]
    simp only [List.any_eq_true, beq_iff_eq]
    exact ⟨pathBase u, List.mem_append_right _ (List.mem_map_of_mem _ hu),
      rfl⟩
  · have h3 : (runPipelineFS resp dates (runPipelineFS resp dates files).2).1 =
        filterMissingDownloads (runPipelineFS resp dates files).2
          (discoverLinks resp dates) := rfl
    rw [h3, h2, List.eq_nil_iff_forall_not_mem]
    intro u hu
    rw [mem_filterMissingDownloads] at hu
    obtain ⟨hul, hub⟩ := hu
    apply hub
    by_cases hf : pathBase u ∈ files
    · exact List.mem_append_left _ hf
    · have hmiss : u ∈ filterMissingDownloads files (discoverLinks resp dates) :=
        (mem_filterMissingDownloads files (discoverLinks resp dates) u).2 ⟨hul, hf⟩
      exact List.mem_append_right _ (List.mem_map_of_mem _ hmiss)

/-- Witness for C9 on a one-date run over an empty directory with an
archive that reports every candidate found. -/
theorem pipeline_idempotent_witness :
    (∀ u ∈ (runPipelineFS (fun _ => true) ["20240303"] []).1,
      fileExists (runPipelineFS (fun _ => true) ["20240303"] []).2
        (pathBase u) = true) ∧
    (runPipelineFS (fun _ => true) ["20240303"]
      (runPipelineFS (fun _ => true) ["20240303"] []).2).1 = [] :=
  pipeline_idempotent (fun _ => true) ["20240303"] []

/-- Every month length is between 28 and 31 days. -/
theorem daysInMonth_bounds (m y : Int) :
    28 ≤ daysInMonth m y ∧ daysInMonth m y ≤ 31 := by
  unfold daysInMonth
  split_ifs <;> omega

/-- Advancing one day inside a month only increments the day field. -/
theorem addOneDay_in_month (y m d : Int) (hd : d < daysInMonth m y) :
    addOneDay ⟨y, m, d⟩ = ⟨y, m, d + 1⟩ := by
  simp only [addOneDay]
  rw [if_pos hd]

/-- Unfolding of one iteration of the `findSundays` loop. -/
theorem findSundaysAux_succ (lastDay day : GoDate) (f : Nat) :
    findSundaysAux lastDay (f + 1) day =
      (if day.weekday = 0 then [day] else [])
        ++ (if day = lastDay then []
            else findSundaysAux lastDay f (addOneDay day)) := rfl

/-- Extensionality helper for `GoDate`. -/
theorem goDate_eq (t : GoDate) (a b c : Int)
    (h1 : t.year = a) (h2 : t.month = b) (h3 : t.day = c) : t = ⟨a, b, c⟩ := by
  obtain ⟨x, u, v⟩ := t
  simp only [GoDate.mk.injEq]
  exact ⟨h1, h2, h3⟩

/-- Membership in the `findSundays` loop started at day `d` of the month:
the collected dates are exactly the Sundays of the month from day `d` to
the last day `n`. -/
theorem findSundaysAux_mem (y m n : Int) (hn : n = daysInMonth m y) :
    ∀ (fuel : Nat) (d : Int), 1 ≤ d → d ≤ n → (n - d).toNat < fuel →
      ∀ t : GoDate,
        t ∈ findSundaysAux ⟨y, m, n⟩ fuel ⟨y, m, d⟩ ↔
          t.year = y ∧ t.month = m ∧ d ≤ t.day ∧ t.day ≤ n ∧ t.weekday = 0 := by
  intro fuel
  induction fuel with
  | zero =>
    intro d hd1 hd2 hf t
    exact absurd hf (by omega)
  | succ f ih =>
    intro d hd1 hd2 hf t
    by_cases hdn : d = n
    · subst hdn
      rw [findSundaysAux_succ,
        if_pos (rfl : (⟨y, m, d⟩ : GoDate) = ⟨y, m, d⟩), List.append_nil]
      by_cases hw : GoDate.weekday ⟨y, m, d⟩ = 0
      · rw [if_pos hw]
        constructor
        · intro ht
          rw [List.mem_singleton] at ht
          subst ht
          exact ⟨rfl, rfl, le_refl _, le_refl _, hw⟩
        · rintro ⟨hty, htm, htd1, htd2, htw⟩
          rw [List.mem_singleton]
          exact goDate_eq t y m d hty htm (by omega)
      · rw [if_neg hw]
        simp only [List.not_mem_nil, false_iff]
        rintro ⟨hty, htm, htd1, htd2, htw⟩
        apply hw
        have ht : t = ⟨y, m, d⟩ := goDate_eq t y m d hty htm (by omega)
        rw [← ht]
        exact htw
    · have hne : ¬((⟨y, m, d⟩ : GoDate) = ⟨y, m, n⟩) := by
        intro hEq
        have hda : d = n := congrArg GoDate.day hEq
        omega
      rw [findSundaysAux_succ, if_neg hne, addOneDay_in_month y m d (by omega),
        List.mem_append, ih (d + 1) (by omega) (by omega) (by omega) t]
      constructor
      · rintro (hh | ⟨hty, htm, ht1, ht2, htw⟩)
        · by_cases hw : GoDate.weekday ⟨y, m, d⟩ = 0
          · rw [if_pos hw, List.mem_singleton] at hh
            subst hh
            exact ⟨rfl, rfl, le_refl _, by show d ≤ n; omega, hw⟩
          · rw [if_neg hw] at hh
            cases hh
        · exact ⟨hty, htm, by omega, ht2, htw⟩
      · rintro ⟨hty, htm, ht1, ht2, htw⟩
        by_cases hcase : t.day = d
        · left
          have ht : t = ⟨y, m, d⟩ := goDate_eq t y m d hty htm hcase
          have hw : GoDate.weekday ⟨y, m, d⟩ = 0 := by rw [← ht]; exact htw
          rw [if_pos hw, List.mem_singleton]
          exact ht
        · right
          exact ⟨hty, htm, by omega, ht2, htw⟩

/-- The dates collected by the `findSundays` loop appear in strictly
ascending day order. -/
theorem findSundaysAux_pairwise (y m n : Int) (hn : n = daysInMonth m y) :
    ∀ (fuel : Nat) (d : Int), 1 ≤ d → d ≤ n → (n - d).toNat < fuel →
      (findSundaysAux ⟨y, m, n⟩ fuel ⟨y, m, d⟩).Pairwise
        (fun a b => a.day < b.day) := by
  intro fuel
  induction fuel with
  | zero =>
    intro d hd1 hd2 hf
    exact absurd hf (by omega)
  | succ f ih =>
    intro d hd1 hd2 hf
    by_cases hdn : d = n
    · subst hdn
      rw [findSundaysAux_succ,
        if_pos (rfl : (⟨y, m, d⟩ : GoDate) = ⟨y, m, d⟩), List.append_nil]
      split_ifs with hw
      · exact List.pairwise_singleton _ _
      · exact List.Pairwise.nil
    · have hne : ¬((⟨y, m, d⟩ : GoDate) = ⟨y, m, n⟩) := by
        intro hEq
        have hda : d = n := congrArg GoDate.day hEq
        omega
      rw [findSundaysAux_succ, if_neg hne, addOneDay_in_month y m d (by omega)]
      apply List.pairwise_append.2
      refine ⟨?_, ih (d + 1) (by omega) (by omega) (by omega), ?_⟩
      · split_ifs with hw
        · exact List.pairwise_singleton _ _
        · exact List.Pairwise.nil
      · intro a ha b hb
        have hbd : d + 1 ≤ b.day :=
          ((findSundaysAux_mem y m n hn f (d + 1) (by omega) (by omega)
            (by omega) b).1 hb).2.2.1
        split_ifs at ha with hw
        · rw [List.mem_singleton] at ha
          subst ha
          show d < b.day
          omega
        · cases ha

/-- C5: for every month in 1-12 and every year, `findSundays` returns
exactly the dates of that month whose weekday is Sunday, in strictly
ascending order, each lying between the first and the last day of the
month inclusive. -/
theorem findSundays_spec (m y : Int) (h1 : 1 ≤ m) (h2 : m ≤ 12) :
    (findSundays m y).Pairwise (fun a b => a.abs < b.abs) ∧
    ∀ t : GoDate, t ∈ findSundays m y ↔
      t.year = y ∧ t.month = m ∧ 1 ≤ t.day ∧
        t.day ≤ (lastDayOfMonth m y).day ∧ t.weekday = 0 := by
  have hb := daysInMonth_bounds m y
  have hmem := findSundaysAux_mem y m (daysInMonth m y) rfl 366 1 (le_refl 1)
    (by omega) (by omega)
  have hpw := findSundaysAux_pairwise y m (daysInMonth m y) rfl 366 1
    (le_refl 1) (by omega) (by omega)
  constructor
  · refine List.Pairwise.imp_of_mem ?_ hpw
    intro a b ha hb2 hab
    obtain ⟨hay, ham, _, _, _⟩ := (hmem a).1 ha
    obtain ⟨hby, hbm, _, _, _⟩ := (hmem b).1 hb2
    unfold GoDate.abs dateAbs
    rw [hay, ham, hby, hbm]
    by_cases hc : isLeap y ∧ 3 ≤ m <;> simp only [hc, if_true, if_false,
      ite_true, ite_false, reduceIte] <;> omega
  · intro t
    exact hmem t

/-- Witness for C5 at March 2024 (Sundays on the 3rd, 10th, 17th, 24th and
31st). -/
theorem findSundays_spec_witness :
    (1 : Int) ≤ 3 ∧ (3 : Int) ≤ 12 ∧
      ((findSundays 3 2024).Pairwise (fun a b => a.abs < b.abs) ∧
        ∀ t : GoDate, t ∈ findSundays 3 2024 ↔
          t.year = 2024 ∧ t.month = 3 ∧ 1 ≤ t.day ∧
            t.day ≤ (lastDayOfMonth 3 2024).day ∧ t.weekday = 0) :=
  ⟨by norm_num, by norm_num, findSundays_spec 3 2024 (by norm_num) (by norm_num)⟩

/-- C6: with no past offset (previous-month flag unset and months-back
count zero) every candidate date has day-of-month at most today's; with any
past offset no trimming is applied and the candidate list is the whole
Sunday list of the target month. -/
theorem candidateDates_trim (up : Bool) (p : Nat) (today m y : Int) :
    ((up = false ∧ p = 0) →
      ∀ t ∈ candidateDates up p today m y, t.day ≤ today) ∧
    ((up = true ∨ p ≠ 0) →
      candidateDates up p today m y = findSundays m y) := by
  constructor
  · rintro ⟨hup, hp⟩ t ht
    subst hup hp
    simp only [candidateDates, Bool.false_eq_true, not_false_eq_true,
      and_self, if_true, ite_true, reduceIte] at ht
    rw [filterSundaysUntilToday, List.mem_filter] at ht
    exact of_decide_eq_true ht.2
  · intro h
    rw [candidateDates, if_neg]
    rintro ⟨hnot, hzero⟩
    rcases h with h | h
    · rw [h] at hnot
      exact hnot rfl
    · exact h hzero

/-- Witness for C6: March 2024 with today the 20th trims to days at most
20; the previous-month flag skips the trim. -/
theorem candidateDates_trim_witness :
    (∀ t ∈ candidateDates false 0 20 3 2024, t.day ≤ 20) ∧
      candidateDates true 0 20 3 2024 = findSundays 3 2024 :=
  ⟨(candidateDates_trim false 0 20 3 2024).1 ⟨rfl, rfl⟩,
    (candidateDates_trim true 0 20 3 2024).2 (Or.inl rfl)⟩

end PacificNotions
